import Mathlib

/-! Verification development for the storage-migration engine of the chorus
nostr relay (`chorus-lib/src/store/migrations.rs`).  The on-disk LMDB tables
are embedded as association lists with overwrite-on-put semantics, the event
log as a partial map from offsets to decoded events, and `Store::migrate`
together with its per-level step functions as pure Lean functions returning
an explicit outcome (committed store, error, or panic). -/

namespace Chorus

/-- A byte string: a list of byte values. -/
abbrev Bytes := List Nat

/-- Big-endian 4-byte encoding of a 32-bit value (`u32::to_be_bytes`). -/
def be32 (n : Nat) : Bytes :=
  [n / 2 ^ 24 % 256, n / 2 ^ 16 % 256, n / 2 ^ 8 % 256, n % 256]

/-- Big-endian 8-byte encoding of a 64-bit value (`u64::to_be_bytes`). -/
def be64 (n : Nat) : Bytes :=
  [n / 2 ^ 56 % 256, n / 2 ^ 48 % 256, n / 2 ^ 40 % 256, n / 2 ^ 32 % 256,
   n / 2 ^ 24 % 256, n / 2 ^ 16 % 256, n / 2 ^ 8 % 256, n % 256]

/-- Big-endian value of a byte string (`u32::from_be_bytes` on 4 bytes). -/
def beVal (bs : Bytes) : Nat := bs.foldl (fun a b => a * 256 + b) 0

/-- The bytes of the key `"migration_level"` in the `general` table. -/
def mlKey : Bytes := [109, 105, 103, 114, 97, 116, 105, 111, 110, 95, 108, 101, 118, 101, 108]

/-- The constant `CURRENT_MIGRATION_LEVEL` (migrations.rs line 8). -/
abbrev CURRENT_MIGRATION_LEVEL : Nat := 5

/-- A decoded nostr event as the migration code observes it: `id` and `pubkey`
are 32-byte strings, `created_at` a u64, and `tags` the outcome of
`event.tags()` (`none` models a tags-decoding error, `some` the tag list,
each tag an ordered list of byte strings). -/
structure Event where
  id : Bytes
  pubkey : Bytes
  created_at : Nat
  tags : Option (List (List Bytes))
deriving DecidableEq

/-- An LMDB table: an association list with unique keys maintained by
overwrite-on-put.  `tput` models `Database::put` (overwrite the value of an
existing key, else append). -/
def tput {κ α : Type} [DecidableEq κ] : List (κ × α) → κ → α → List (κ × α)
  | [], k, v => [(k, v)]
  | (k', v') :: rest, k, v =>
    if k' = k then (k, v) :: rest else (k', v') :: tput rest k v

/-- `tget` models `Database::get`: the value stored at a key, if any. -/
def tget {κ α : Type} [DecidableEq κ] : List (κ × α) → κ → Option α
  | [], _ => none
  | (k', v') :: rest, k => if k' = k then some v' else tget rest k

/-- The store state: the named LMDB sub-databases of the chorus environment
(including the two legacy tables opened by name in steps 4 and 5), plus the
event log viewed through `get_event_by_offset` (`events`; `none` models a
lookup/decoding failure for that offset). -/
structure Store where
  general : List (Bytes × Bytes)
  i_index : List (Bytes × Nat)
  ci_index : List (Bytes × Nat)
  ac_index : List (Bytes × Nat)
  tc_index : List (Bytes × Nat)
  deleted_ids : List (Bytes × Unit)
  ip_data : List (Bytes × Bytes)
  deleted_offsets : List (Nat × Unit)
  deleted_events : List (Bytes × Unit)
  events : Nat → Option Event

/-- Modelled from the spec: `key_ci_index(created_at, id) = BE8(created_at) ++ id`
(spec §4.2); the key-builder functions live outside the provided sources. -/
def key_ci_index (created_at : Nat) (id : Bytes) : Bytes :=
  be64 created_at ++ id

/-- Modelled from the spec: `key_ac_index(pubkey, created_at, id) =
pubkey ++ BE8(created_at) ++ id` (spec §4.2). -/
def key_ac_index (pubkey : Bytes) (created_at : Nat) (id : Bytes) : Bytes :=
  pubkey ++ be64 created_at ++ id

/-- Modelled from the spec: `key_tc_index(tag_name_byte, tag_value, created_at, id)
= tag_name_byte ++ tag_value ++ BE8(created_at) ++ id` (spec §4.2). -/
def key_tc_index (tagname : Nat) (tagvalue : Bytes) (created_at : Nat) (id : Bytes) : Bytes :=
  tagname :: tagvalue ++ be64 created_at ++ id

/-- The distinct panic sites of the migration code. -/
inductive PanicMsg where
  | unknownLevel
  | sliceOob
deriving DecidableEq

/-- Outcome of one migration step: updated working state, a returned error
(`?` propagation), or a panic. -/
inductive StepOut where
  | ok (w : Store)
  | err
  | panic (msg : PanicMsg)

/-- Outcome of `Store::migrate`, together with the list of levels passed to
`migrate_to` (in call order).  `ok` carries the committed store; on `err` or
`panic` the write transaction is dropped, so nothing is persisted. -/
inductive MigOut where
  | ok (w : Store) (trace : List Nat)
  | err (trace : List Nat)
  | panic (msg : PanicMsg) (trace : List Nat)

/-- The loop body of `migrate_to_1` (lines 56-66): for each `(_, offset)` of
the `i_index` snapshot, load the event by offset and insert
`(key_ci_index(created_at, id), offset)` into `ci_index`; an event-load
failure propagates as an error (`none`). -/
def ciInsertAll (evs : Nat → Option Event) :
    List (Bytes × Nat) → List (Bytes × Nat) → Option (List (Bytes × Nat))
  | [], ci => some ci
  | (_, off) :: rest, ci =>
    match evs off with
    | none => none
    | some e => ciInsertAll evs rest (tput ci (key_ci_index e.created_at e.id) off)

/-- `migrate_to_1` (lines 55-69): populate `ci_index` from a read-transaction
snapshot of `i_index`.  `snap` is the last-committed state seen by the inner
`read_txn`, `w` the working state of the enclosing write transaction. -/
def migrate_to_1 (snap w : Store) : StepOut :=
  match ciInsertAll snap.events snap.i_index w.ci_index with
  | none => StepOut.err
  | some ci => StepOut.ok { w with ci_index := ci }

/-- The tag test of `migrate_to_2` (lines 87-104): a tag contributes a
`tc_index` key exactly when its first element (`tsi.next()`) exists with
length 1 and a second element (`tsi.next()` again) exists; the key is built
from the single name byte and the value. -/
def tagEntry (e : Event) (tag : List Bytes) : Option Bytes :=
  match tag with
  | [] => none
  | tagname :: rest =>
    if tagname.length = 1 then
      match rest with
      | [] => none
      | tagvalue :: _ => some (key_tc_index (tagname.headD 0) tagvalue e.created_at e.id)
    else none

/-- The inner tag loop of `migrate_to_2`: insert `(key, offset)` into
`tc_index` for every tag that passes `tagEntry`. -/
def tcInsertTags (e : Event) (off : Nat) :
    List (List Bytes) → List (Bytes × Nat) → List (Bytes × Nat)
  | [], tc => tc
  | tag :: rest, tc =>
    match tagEntry e tag with
    | none => tcInsertTags e off rest tc
    | some k => tcInsertTags e off rest (tput tc k off)

/-- The loop body of `migrate_to_2` (lines 74-105): for each `i_index` entry
load the event, insert its `ac_index` entry, then run the tag loop; an
event-load failure or a `tags()` failure propagates as an error. -/
def step2All (evs : Nat → Option Event) :
    List (Bytes × Nat) → List (Bytes × Nat) → List (Bytes × Nat) →
      Option (List (Bytes × Nat) × List (Bytes × Nat))
  | [], ac, tc => some (ac, tc)
  | (_, off) :: rest, ac, tc =>
    match evs off with
    | none => none
    | some e =>
      match e.tags with
      | none => none
      | some tags =>
        step2All evs rest (tput ac (key_ac_index e.pubkey e.created_at e.id) off)
          (tcInsertTags e off tags tc)

/-- `migrate_to_2` (lines 72-108): populate `ac_index` and `tc_index` from a
read-transaction snapshot of `i_index`. -/
def migrate_to_2 (snap w : Store) : StepOut :=
  match step2All snap.events snap.i_index w.ac_index w.tc_index with
  | none => StepOut.err
  | some (ac, tc) => StepOut.ok { w with ac_index := ac, tc_index := tc }

/-- `migrate_to_3` (lines 111-114): clear the `ip_data` table. -/
def migrate_to_3 (w : Store) : StepOut :=
  StepOut.ok { w with ip_data := [] }

/-- `migrate_to_4` (lines 117-126): open the legacy `deleted_offsets` table
by name and clear it. -/
def migrate_to_4 (w : Store) : StepOut :=
  StepOut.ok { w with deleted_offsets := [] }

/-- The collection loop of `migrate_to_5` (lines 139-143): for each key of
the legacy `deleted-events` table, take its leading 32 bytes as an id
(`Id(key[0..32].try_into().unwrap())`).  A key shorter than 32 bytes makes
the slice `key[0..32]` panic (`none`). -/
def collectIds : List (Bytes × Unit) → Option (List Bytes)
  | [] => some []
  | (key, _) :: rest =>
    if 32 ≤ key.length then
      match collectIds rest with
      | none => none
      | some ids => some (key.take 32 :: ids)
    else none

/-- Insert each collected id into `deleted_ids` (lines 145-147). -/
def putIds (d : List (Bytes × Unit)) : List Bytes → List (Bytes × Unit)
  | [] => d
  | i :: rest => putIds (tput d i ()) rest

/-- `migrate_to_5` (lines 129-152): collect the leading 32 bytes of every
`deleted-events` key, insert each as a key of `deleted_ids`, then clear the
legacy table. -/
def migrate_to_5 (w : Store) : StepOut :=
  match collectIds w.deleted_events with
  | none => StepOut.panic PanicMsg.sliceOob
  | some ids =>
    StepOut.ok { w with deleted_ids := putIds w.deleted_ids ids, deleted_events := [] }

/-- `migrate_to` (lines 40-52): dispatch on the level; an unknown level hits
`panic!("Unknown migration level ...")`. -/
def migrate_to (snap w : Store) (level : Nat) : StepOut :=
  match level with
  | 1 => migrate_to_1 snap w
  | 2 => migrate_to_2 snap w
  | 3 => migrate_to_3 w
  | 4 => migrate_to_4 w
  | 5 => migrate_to_5 w
  | _ => StepOut.panic PanicMsg.unknownLevel

/-- The `while migration_level < CURRENT_MIGRATION_LEVEL` loop of `migrate`
(lines 25-33): run `migrate_to(level + 1)`, then put the incremented level
under `"migration_level"` in `general`, and repeat.  `snap` stays the state
at entry (nothing commits before the loop ends), and the fuel argument only
bounds the recursion: the loop runs at most `CURRENT_MIGRATION_LEVEL`
iterations, so fuel `CURRENT_MIGRATION_LEVEL` is never exhausted before the
loop condition fails. -/
def migrateLoop (snap : Store) : Nat → Nat → Store → MigOut
  | 0, _, w => MigOut.ok w []
  | fuel + 1, level, w =>
    if level < CURRENT_MIGRATION_LEVEL then
      match migrate_to snap w (level + 1) with
      | StepOut.err => MigOut.err [level + 1]
      | StepOut.panic m => MigOut.panic m [level + 1]
      | StepOut.ok w' =>
        match migrateLoop snap fuel (level + 1)
            { w' with general := tput w'.general mlKey (be32 (level + 1)) } with
        | MigOut.ok wf tr => MigOut.ok wf ((level + 1) :: tr)
        | MigOut.err tr => MigOut.err ((level + 1) :: tr)
        | MigOut.panic m tr => MigOut.panic m ((level + 1) :: tr)
    else MigOut.ok w []

/-- The level decode of `migrate` (lines 14-21): read
`general["migration_level"]`, default to the 4 zero bytes when absent, slice
the first 4 bytes and decode big-endian.  Slicing a value shorter than
4 bytes panics (`none`). -/
def decodeMigrationLevel (stored : Option Bytes) : Option Nat :=
  let bytes := stored.getD (be32 0)
  if 4 ≤ bytes.length then some (beVal (bytes.take 4)) else none

/-- `Store::migrate` (lines 11-38): one write transaction for the whole
ladder; decode the stored level, run the loop, commit at the end.  The
result records the levels passed to `migrate_to`. -/
def migrate (s : Store) : MigOut :=
  match decodeMigrationLevel (tget s.general mlKey) with
  | none => MigOut.panic PanicMsg.sliceOob []
  | some level => migrateLoop s CURRENT_MIGRATION_LEVEL level s

/-- The committed store of a migration outcome, if it succeeded. -/
def migStores : MigOut → Option Store
  | MigOut.ok w _ => some w
  | MigOut.err _ => none
  | MigOut.panic _ _ => none

/-- The levels passed to `migrate_to` during a run. -/
def migTrace : MigOut → List Nat
  | MigOut.ok _ tr => tr
  | MigOut.err tr => tr
  | MigOut.panic _ tr => tr

/-- The state persisted on disk after calling `migrate` on `s`: the committed
working state on success; on error or panic the single write transaction is
dropped, so the database keeps its previous contents `s`. -/
def persisted (s : Store) : Store :=
  match migrate s with
  | MigOut.ok w _ => w
  | MigOut.err _ => s
  | MigOut.panic _ _ => s

/-- Looking up the key just put returns the value just put. -/
theorem tget_tput_self {κ α : Type} [DecidableEq κ] (t : List (κ × α)) (k : κ) (v : α) :
    tget (tput t k v) k = some v := by
  induction t with
  | nil => simp [tput, tget]
  | cons kv rest ih =>
    obtain ⟨k', v'⟩ := kv
    by_cases h : k' = k
    · simp [tput, h, tget]
    · simp [tput, h, tget, ih]

/-- Putting one key leaves lookups of every other key unchanged. -/
theorem tget_tput_ne {κ α : Type} [DecidableEq κ] (t : List (κ × α)) (k k' : κ) (v : α)
    (h : k' ≠ k) : tget (tput t k v) k' = tget t k' := by
  induction t with
  | nil => simp [tput, tget, Ne.symm h]
  | cons kv rest ih =>
    obtain ⟨k0, v0⟩ := kv
    by_cases h0 : k0 = k
    · subst h0
      simp [tput, tget, Ne.symm h]
    · by_cases h1 : k0 = k'
      · subst h1
        simp [tput, tget, h0]
      · simp [tput, h0, tget, h1, ih]

/-- Membership in `deleted_ids` after `putIds`: exactly the inserted ids plus
whatever was there before. -/
theorem tget_putIds (l : List Bytes) : ∀ (d : List (Bytes × Unit)) (k : Bytes),
    (tget (putIds d l) k).isSome = true ↔ (k ∈ l ∨ (tget d k).isSome = true) := by
  induction l with
  | nil => intro d k; simp [putIds]
  | cons i rest ih =>
    intro d k
    show (tget (putIds (tput d i ()) rest) k).isSome = true ↔ _
    rw [ih]
    by_cases h : k = i
    · subst h
      simp [tget_tput_self]
    · rw [tget_tput_ne d i k () h]
      simp [List.mem_cons, h]

/-- When every `deleted-events` key has at least 32 bytes, the collection
loop of step 5 completes without panicking. -/
theorem collectIds_ok (l : List (Bytes × Unit)) :
    (∀ kv ∈ l, 32 ≤ kv.1.length) → ∃ ids, collectIds l = some ids := by
  induction l with
  | nil => intro _; exact ⟨[], rfl⟩
  | cons kv rest ih =>
    intro h
    obtain ⟨ids, hi⟩ := ih (fun x hx => h x (List.mem_cons_of_mem _ hx))
    obtain ⟨key, u⟩ := kv
    refine ⟨key.take 32 :: ids, ?_⟩
    have hk : 32 ≤ key.length := h (key, u) (List.mem_cons_self _ _)
    simp [collectIds, hk, hi]

/-- Two `ci_index` keys agree only when the embedded ids agree. -/
theorem key_ci_index_id_inj (c1 c2 : Nat) (i1 i2 : Bytes)
    (h : key_ci_index c1 i1 = key_ci_index c2 i2) : i1 = i2 := by
  unfold key_ci_index at h
  have hl : (be64 c1).length = (be64 c2).length := rfl
  exact (List.append_inj h hl).2

/-- Keys untouched by the step-1 insertion loop keep their prior value. -/
theorem ciInsertAll_frame (evs : Nat → Option Event) (entries : List (Bytes × Nat)) :
    ∀ (ci ci' : List (Bytes × Nat)), ciInsertAll evs entries ci = some ci' →
      ∀ k : Bytes,
        (∀ kv ∈ entries, ∀ e, evs kv.2 = some e → key_ci_index e.created_at e.id ≠ k) →
        tget ci' k = tget ci k := by
  induction entries with
  | nil =>
    intro ci ci' hok k _
    cases hok
    rfl
  | cons kv rest ih =>
    intro ci ci' hok k hmiss
    obtain ⟨k0, o0⟩ := kv
    cases he : evs o0 with
    | none => simp [ciInsertAll, he] at hok
    | some e0 =>
      simp only [ciInsertAll, he] at hok
      have hrest := ih _ _ hok k
        (fun x hx e hev => hmiss x (List.mem_cons_of_mem _ hx) e hev)
      rw [hrest]
      exact tget_tput_ne _ _ _ _ (Ne.symm (hmiss (k0, o0) (List.mem_cons_self _ _) e0 he))

/-- Step-1 soundness: when the id keys of the scanned entries are distinct
and each entry's event carries the entry's key as its id, every scanned
entry ends up reachable in the produced `ci_index` under its composite key. -/
theorem ciInsertAll_sound (evs : Nat → Option Event) (entries : List (Bytes × Nat)) :
    ∀ (ci ci' : List (Bytes × Nat)), ciInsertAll evs entries ci = some ci' →
      (∀ kv ∈ entries, ∀ e, evs kv.2 = some e → e.id = kv.1) →
      (entries.map Prod.fst).Nodup →
      ∀ kv ∈ entries, ∀ e, evs kv.2 = some e →
        tget ci' (key_ci_index e.created_at e.id) = some kv.2 := by
  induction entries with
  | nil =>
    intro ci ci' _ _ _ kv hkv
    exact absurd hkv (List.not_mem_nil kv)
  | cons hd rest ih =>
    intro ci ci' hok hid hnd kv hkv e hev
    obtain ⟨k0, o0⟩ := hd
    cases he : evs o0 with
    | none => simp [ciInsertAll, he] at hok
    | some e0 =>
      simp only [ciInsertAll, he] at hok
      simp only [List.map_cons] at hnd
      have hnd' := List.nodup_cons.mp hnd
      rcases List.mem_cons.mp hkv with heq | hmem
      · subst heq
        have heq0 : e = e0 := by
          rw [hev] at he
          exact Option.some.inj he
        subst heq0
        have hid0 : e.id = k0 := hid (k0, o0) (List.mem_cons_self _ _) e he
        have hmiss : ∀ x ∈ rest, ∀ e1, evs x.2 = some e1 →
            key_ci_index e1.created_at e1.id ≠ key_ci_index e.created_at e.id := by
          intro x hx e1 he1 hkeq
          have hids : e1.id = e.id := key_ci_index_id_inj _ _ _ _ hkeq
          have h1 : e1.id = x.1 := hid x (List.mem_cons_of_mem _ hx) e1 he1
          have hx1 : x.1 ∈ rest.map Prod.fst := List.mem_map_of_mem Prod.fst hx
          rw [← h1, hids, hid0] at hx1
          exact hnd'.1 hx1
        have hframe := ciInsertAll_frame evs rest _ _ hok
          (key_ci_index e.created_at e.id) hmiss
        rw [hframe]
        exact tget_tput_self _ _ _
      · exact ih _ _ hok
          (fun x hx e1 he1 => hid x (List.mem_cons_of_mem _ hx) e1 he1)
          hnd'.2 kv hmem e hev

/-- When the loop condition already fails, the loop returns its state with an
empty trace (for any fuel). -/
theorem migrateLoop_stop (snap : Store) (fuel level : Nat) (w : Store)
    (h : ¬ level < CURRENT_MIGRATION_LEVEL) :
    migrateLoop snap fuel level w = MigOut.ok w [] := by
  cases fuel with
  | zero => rfl
  | succ fuel => simp [migrateLoop, h]

/-- One unfolding of the loop when the condition holds. -/
theorem migrateLoop_go (snap : Store) (fuel level : Nat) (w : Store)
    (h : level < CURRENT_MIGRATION_LEVEL) :
    migrateLoop snap (fuel + 1) level w =
      match migrate_to snap w (level + 1) with
      | StepOut.err => MigOut.err [level + 1]
      | StepOut.panic m => MigOut.panic m [level + 1]
      | StepOut.ok w' =>
        match migrateLoop snap fuel (level + 1)
            { w' with general := tput w'.general mlKey (be32 (level + 1)) } with
        | MigOut.ok wf tr => MigOut.ok wf ((level + 1) :: tr)
        | MigOut.err tr => MigOut.err ((level + 1) :: tr)
        | MigOut.panic m tr => MigOut.panic m ((level + 1) :: tr) := by
  simp [migrateLoop, h]

/-- Whenever the loop starts below `CURRENT_MIGRATION_LEVEL` with enough
fuel and ends in a committed state, that state stores
`migration_level = CURRENT_MIGRATION_LEVEL`. -/
theorem migrateLoop_final_level : ∀ (fuel level : Nat) (snap w wf : Store) (tr : List Nat),
    CURRENT_MIGRATION_LEVEL ≤ fuel + level → level < CURRENT_MIGRATION_LEVEL →
    migrateLoop snap fuel level w = MigOut.ok wf tr →
    tget wf.general mlKey = some (be32 CURRENT_MIGRATION_LEVEL) := by
  intro fuel
  induction fuel with
  | zero =>
    intro level snap w wf tr hn hlt _
    omega
  | succ fuel ih =>
    intro level snap w wf tr hn hlt hm
    rw [migrateLoop_go snap fuel level w hlt] at hm
    cases hstep : migrate_to snap w (level + 1) with
    | err => rw [hstep] at hm; cases hm
    | panic m => rw [hstep] at hm; cases hm
    | ok w' =>
      rw [hstep] at hm
      dsimp only at hm
      by_cases hlt2 : level + 1 < CURRENT_MIGRATION_LEVEL
      · cases hrec : migrateLoop snap fuel (level + 1)
            { w' with general := tput w'.general mlKey (be32 (level + 1)) } with
        | ok wf' tr' =>
          rw [hrec] at hm
          cases hm
          exact ih (level + 1) snap _ _ tr' (by omega) hlt2 hrec
        | err tr' => rw [hrec] at hm; cases hm
        | panic m tr' => rw [hrec] at hm; cases hm
      · rw [migrateLoop_stop snap fuel (level + 1) _ hlt2] at hm
        cases hm
        have hfin : level + 1 = CURRENT_MIGRATION_LEVEL := by omega
        rw [← hfin]
        exact tget_tput_self _ _ _

/-- Every level the loop passes to `migrate_to` lies strictly above the
starting level and at most `CURRENT_MIGRATION_LEVEL`. -/
theorem migrateLoop_trace_range : ∀ (fuel level : Nat) (snap w : Store) (l : Nat),
    l ∈ migTrace (migrateLoop snap fuel level w) →
    level < l ∧ l ≤ CURRENT_MIGRATION_LEVEL := by
  intro fuel
  induction fuel with
  | zero =>
    intro level snap w l hl
    simp [migrateLoop, migTrace] at hl
  | succ fuel ih =>
    intro level snap w l hl
    by_cases h : level < CURRENT_MIGRATION_LEVEL
    · rw [migrateLoop_go snap fuel level w h] at hl
      cases hstep : migrate_to snap w (level + 1) with
      | err =>
        rw [hstep] at hl
        simp [migTrace] at hl
        omega
      | panic m =>
        rw [hstep] at hl
        simp [migTrace] at hl
        omega
      | ok w' =>
        rw [hstep] at hl
        dsimp only at hl
        cases hrec : migrateLoop snap fuel (level + 1)
            { w' with general := tput w'.general mlKey (be32 (level + 1)) } with
        | ok wf tr =>
          rw [hrec] at hl
          simp [migTrace] at hl
          rcases hl with rfl | hl
          · omega
          · have := ih (level + 1) snap _ l (by rw [hrec]; exact hl)
            omega
        | err tr =>
          rw [hrec] at hl
          simp [migTrace] at hl
          rcases hl with rfl | hl
          · omega
          · have := ih (level + 1) snap _ l (by rw [hrec]; exact hl)
            omega
        | panic m tr =>
          rw [hrec] at hl
          simp [migTrace] at hl
          rcases hl with rfl | hl
          · omega
          · have := ih (level + 1) snap _ l (by rw [hrec]; exact hl)
            omega
    · rw [migrateLoop_stop snap (fuel + 1) level w h] at hl
      simp [migTrace] at hl

/-- A fresh, empty database: every table empty, the event log empty. -/
def freshStore : Store :=
  { general := [], i_index := [], ci_index := [], ac_index := [], tc_index := [],
    deleted_ids := [], ip_data := [], deleted_offsets := [], deleted_events := [],
    events := fun _ => none }

/-- Claim C7: starting from a fresh (empty) database in which
`general["migration_level"]` is absent, `migrate` treats the absent level
as 0, invokes steps 1 through 5 in ascending order, and commits with the
stored `migration_level` equal to `CURRENT_MIGRATION_LEVEL` = 5. -/
theorem migrate_fresh_reaches_current :
    decodeMigrationLevel none = some 0 ∧
    tget freshStore.general mlKey = none ∧
    migrate freshStore =
      MigOut.ok { freshStore with general := [(mlKey, be32 5)] } [1, 2, 3, 4, 5] ∧
    tget (persisted freshStore).general mlKey = some (be32 CURRENT_MIGRATION_LEVEL) :=
  ⟨rfl, rfl, rfl, rfl⟩

/-- Claim C6: running `migrate` twice in succession is a no-op on the second
call: whenever `migrate` commits a state `w`, calling `migrate` on `w`
succeeds immediately, runs no step (empty trace), and returns `w` itself,
so every table — `general`, `i_index`, `ci_index`, `ac_index`, `tc_index`,
`deleted_ids`, `ip_data` and the legacy tables — is unchanged. -/
theorem migrate_idempotent (s w : Store) (tr : List Nat)
    (h : migrate s = MigOut.ok w tr) : migrate w = MigOut.ok w [] := by
  unfold migrate at h
  cases hd : decodeMigrationLevel (tget s.general mlKey) with
  | none => rw [hd] at h; cases h
  | some lvl =>
    rw [hd] at h
    dsimp only at h
    by_cases hlt : lvl < CURRENT_MIGRATION_LEVEL
    · have hfin := migrateLoop_final_level CURRENT_MIGRATION_LEVEL lvl s s w tr
        (by omega) hlt h
      unfold migrate
      rw [hfin]
      rw [show decodeMigrationLevel (some (be32 CURRENT_MIGRATION_LEVEL)) =
        some CURRENT_MIGRATION_LEVEL from rfl]
      dsimp only
      exact migrateLoop_stop w CURRENT_MIGRATION_LEVEL CURRENT_MIGRATION_LEVEL w (by omega)
    · rw [migrateLoop_stop s CURRENT_MIGRATION_LEVEL lvl s hlt] at h
      cases h
      unfold migrate
      rw [hd]
      dsimp only
      exact migrateLoop_stop s CURRENT_MIGRATION_LEVEL lvl s hlt

/-- The store committed by migrating a fresh database. -/
def freshMigrated : Store := { freshStore with general := [(mlKey, be32 5)] }

/-- Witness for C6: instantiating `migrate_idempotent` with the concrete run
on a fresh store. -/
theorem migrate_idempotent_witness : migrate freshMigrated = MigOut.ok freshMigrated [] :=
  migrate_idempotent freshStore freshMigrated [1, 2, 3, 4, 5] rfl

/-- Claim C8: `migrate` only ever passes levels in
`1..=CURRENT_MIGRATION_LEVEL` to `migrate_to` (first conjunct), and on that
range `migrate_to` never takes its unknown-level panic branch (second
conjunct), so that panic is unreachable from `migrate` whatever the stored
level. -/
theorem migrate_levels_in_range (s : Store) :
    (∀ l, l ∈ migTrace (migrate s) → 1 ≤ l ∧ l ≤ CURRENT_MIGRATION_LEVEL) ∧
    (∀ snap w : Store, ∀ l, 1 ≤ l → l ≤ CURRENT_MIGRATION_LEVEL →
      migrate_to snap w l ≠ StepOut.panic PanicMsg.unknownLevel) := by
  constructor
  · intro l hl
    unfold migrate at hl
    cases hd : decodeMigrationLevel (tget s.general mlKey) with
    | none =>
      rw [hd] at hl
      simp [migTrace] at hl
    | some lvl =>
      rw [hd] at hl
      dsimp only at hl
      have := migrateLoop_trace_range CURRENT_MIGRATION_LEVEL lvl s s l hl
      omega
  · intro snap w l h1 h5
    have h5' : l ≤ 5 := h5
    interval_cases l
    · show migrate_to_1 snap w ≠ StepOut.panic PanicMsg.unknownLevel
      unfold migrate_to_1
      cases ciInsertAll snap.events snap.i_index w.ci_index <;> simp
    · show migrate_to_2 snap w ≠ StepOut.panic PanicMsg.unknownLevel
      unfold migrate_to_2
      cases hp : step2All snap.events snap.i_index w.ac_index w.tc_index with
      | none => simp
      | some p => obtain ⟨ac, tc⟩ := p; simp
    · show migrate_to_3 w ≠ StepOut.panic PanicMsg.unknownLevel
      simp [migrate_to_3]
    · show migrate_to_4 w ≠ StepOut.panic PanicMsg.unknownLevel
      simp [migrate_to_4]
    · show migrate_to_5 w ≠ StepOut.panic PanicMsg.unknownLevel
      unfold migrate_to_5
      cases collectIds w.deleted_events <;> simp

/-- Witness for C8: level 1 occurs in the trace of a concrete run and is in
range, and `migrate_to` at level 3 is not the unknown-level panic. -/
theorem migrate_levels_in_range_witness :
    (1 ≤ 1 ∧ 1 ≤ CURRENT_MIGRATION_LEVEL) ∧
    migrate_to freshStore freshStore 3 ≠ StepOut.panic PanicMsg.unknownLevel :=
  ⟨(migrate_levels_in_range freshStore).1 1 (by decide),
   (migrate_levels_in_range freshStore).2 freshStore freshStore 3 (by decide) (by decide)⟩

/-- A database stamped with migration level 6, one above the binary's
`CURRENT_MIGRATION_LEVEL`. -/
def newerStore6 : Store := { freshStore with general := [(mlKey, be32 6)] }

/-- A database stamped with migration level 7. -/
def newerStore7 : Store := { freshStore with general := [(mlKey, be32 7)] }

/-- Counterexample to claim C2 as stated: on a database whose stored
migration level (6) exceeds `CURRENT_MIGRATION_LEVEL` (5), `migrate`
returns success — the loop condition is simply false — rather than an
error: the process does not refuse to run on a database newer than the
binary. -/
theorem migrate_newer_level_cex : migrate newerStore6 = MigOut.ok newerStore6 [] := rfl

/-- Claim C2 (amended): if the stored migration level exceeds
`CURRENT_MIGRATION_LEVEL`, `migrate` returns success immediately: the while
loop never runs, no step executes, the commit persists the database
unchanged, and no error is raised. -/
theorem migrate_newer_level_noop (s : Store) (lvl : Nat)
    (hd : decodeMigrationLevel (tget s.general mlKey) = some lvl)
    (hgt : CURRENT_MIGRATION_LEVEL < lvl) :
    migrate s = MigOut.ok s [] := by
  unfold migrate
  rw [hd]
  dsimp only
  exact migrateLoop_stop s CURRENT_MIGRATION_LEVEL lvl s (by omega)

/-- Witness for C2's amended theorem at stored level 7. -/
theorem migrate_newer_level_noop_witness : migrate newerStore7 = MigOut.ok newerStore7 [] :=
  migrate_newer_level_noop newerStore7 7 rfl (by decide)

/-- An event whose `tags()` call fails to decode. -/
def evBadTags : Event :=
  { id := List.replicate 32 0, pubkey := List.replicate 32 1, created_at := 7, tags := none }

/-- A level-0 database with a single indexed event whose tags do not decode:
step 1 succeeds on it but step 2 fails. -/
def step2FailStore : Store :=
  { freshStore with
    i_index := [(List.replicate 32 0, 100)],
    events := fun o => if o = 100 then some evBadTags else none }

/-- Counterexample to claim C1 as stated: on `step2FailStore`, step 1
succeeds and step 2 fails (so k = 1 in the claim).  The claim predicts that
step 1's effects and `migration_level = 1` are already committed; in fact
`migrate` runs the whole ladder in one write transaction, so the failure
drops the transaction and the persisted state is exactly the original:
`migration_level` is still absent (level 0, not 1) and `ci_index` is still
empty despite step 1 having run. -/
theorem migrate_single_txn_cex :
    migrate step2FailStore = MigOut.err [1, 2] ∧
    persisted step2FailStore = step2FailStore ∧
    tget (persisted step2FailStore).general mlKey = none ∧
    (persisted step2FailStore).ci_index = [] :=
  ⟨rfl, rfl, rfl, rfl⟩

/-- Claim C1 (amended): `migrate` performs every step and every level write
inside a single write transaction committed only after all steps succeed.
On success the committed state is the loop's final working state; if any
step fails, the transaction is dropped, nothing at all is persisted, and in
particular the stored `migration_level` keeps its pre-call value, so the
next open resumes from the original level (not from the last successful
step). -/
theorem migrate_single_txn (s : Store) :
    (∀ w tr, migrate s = MigOut.ok w tr → persisted s = w) ∧
    ((migStores (migrate s)).isNone = true →
      persisted s = s ∧ tget (persisted s).general mlKey = tget s.general mlKey) := by
  constructor
  · intro w tr h
    unfold persisted
    rw [h]
  · intro h
    cases hm : migrate s with
    | ok w tr =>
      rw [hm] at h
      simp [migStores] at h
    | err tr =>
      unfold persisted
      rw [hm]
      exact ⟨rfl, rfl⟩
    | panic m tr =>
      unfold persisted
      rw [hm]
      exact ⟨rfl, rfl⟩

/-- Witness for C1's amended theorem on the concrete failing run. -/
theorem migrate_single_txn_witness :
    persisted step2FailStore = step2FailStore ∧
    tget (persisted step2FailStore).general mlKey = tget step2FailStore.general mlKey :=
  (migrate_single_txn step2FailStore).2 (by decide)

/-- A database whose stored `migration_level` value has only 3 bytes. -/
def shortLevelStore : Store := { freshStore with general := [(mlKey, [0, 0, 3])] }

/-- Claim C10: the level decode of `migrate` defaults an absent
`general["migration_level"]` value to 0 and never panics on it; for a
stored value of at least 4 bytes it never panics and decodes exactly the
first 4 bytes big-endian, ignoring any bytes beyond them; and for a stored
value shorter than 4 bytes the slice `migration_level_bytes[..4]` panics —
`migrate` panics before running any step, instead of returning an error. -/
theorem migrate_level_decode (v : Bytes) :
    decodeMigrationLevel none = some 0 ∧
    (4 ≤ v.length → decodeMigrationLevel (some v) = some (beVal (v.take 4))) ∧
    (∀ extra : Bytes, 4 ≤ v.length →
      decodeMigrationLevel (some (v.take 4 ++ extra)) = decodeMigrationLevel (some v)) ∧
    migrate shortLevelStore = MigOut.panic PanicMsg.sliceOob [] := by
  refine ⟨rfl, ?_, ?_, rfl⟩
  · intro h
    simp [decodeMigrationLevel, h]
  · intro extra h
    have hlen : (v.take 4).length = 4 := by
      rw [List.length_take]
      omega
    have h1 : (v.take 4 ++ extra).take 4 = (v.take 4).take 4 :=
      List.take_append_of_le_length (le_of_eq hlen.symm)
    have h2 : 4 ≤ (v.take 4 ++ extra).length := by
      rw [List.length_append, hlen]
      omega
    simp [decodeMigrationLevel, h, h2, h1, List.take_take]

/-- Witness for C10 at a concrete 5-byte stored value: the trailing byte is
ignored and the first 4 bytes decode big-endian to 2. -/
theorem migrate_level_decode_witness :
    decodeMigrationLevel (some [0, 0, 0, 2, 99]) = some 2 :=
  Eq.trans ((migrate_level_decode [0, 0, 0, 2, 99]).2.1 (by decide)) (by decide)

/-- A store whose legacy `deleted-events` table has a 1-byte key. -/
def shortKeyStore : Store := { freshStore with deleted_events := [([0], ())] }

/-- A store whose legacy `deleted-events` table has one 32-byte key. -/
def longKeyStore : Store := { freshStore with deleted_events := [(List.replicate 32 7, ())] }

/-- Claim C9: if every key of the legacy `deleted-events` table is at least
32 bytes long, step 5 completes without panicking (it returns a state); and
on a key shorter than 32 bytes the slice `key[0..32]` panics, rather than
returning an error. -/
theorem migrate_step5_slice :
    (∀ w : Store, (∀ kv ∈ w.deleted_events, 32 ≤ kv.1.length) →
      ∃ w', migrate_to_5 w = StepOut.ok w') ∧
    migrate_to_5 shortKeyStore = StepOut.panic PanicMsg.sliceOob := by
  constructor
  · intro w h
    obtain ⟨ids, hi⟩ := collectIds_ok w.deleted_events h
    refine ⟨{ w with deleted_ids := putIds w.deleted_ids ids, deleted_events := [] }, ?_⟩
    unfold migrate_to_5
    rw [hi]
  · rfl

/-- Witness for C9 on a store whose single legacy key has 32 bytes. -/
theorem migrate_step5_slice_witness :
    ∃ w', migrate_to_5 longKeyStore = StepOut.ok w' :=
  migrate_step5_slice.1 longKeyStore (by decide)

/-- Claim C5: in step 2 a tag of an event yields a `tc_index` entry iff its
first element has length exactly 1 and a second element exists (first
conjunct: `tagEntry` is some exactly then); the tag loop of the step skips
a tag with no entry and performs exactly one insertion for a tag with one
(remaining conjuncts). -/
theorem migrate_step2_tag_selective (e : Event) (tag : List Bytes) :
    ((tagEntry e tag).isSome = true ↔
      ∃ tagname tagvalue rest, tag = tagname :: tagvalue :: rest ∧ tagname.length = 1) ∧
    (∀ off tags tc, tagEntry e tag = none →
      tcInsertTags e off (tag :: tags) tc = tcInsertTags e off tags tc) ∧
    (∀ off tags tc k, tagEntry e tag = some k →
      tcInsertTags e off (tag :: tags) tc = tcInsertTags e off tags (tput tc k off)) := by
  refine ⟨?_, ?_, ?_⟩
  · cases tag with
    | nil => simp [tagEntry]
    | cons tagname rest =>
      by_cases hlen : tagname.length = 1
      · cases rest with
        | nil => simp [tagEntry, hlen]
        | cons tagvalue r =>
          constructor
          · intro _
            exact ⟨tagname, tagvalue, r, rfl, hlen⟩
          · intro _
            simp [tagEntry, hlen]
      · constructor
        · intro hs
          exfalso
          simp [tagEntry, hlen] at hs
        · rintro ⟨a, b, c, hcons, hal⟩
          exfalso
          cases hcons
          exact hlen hal
  · intro off tags tc h
    simp [tcInsertTags, h]
  · intro off tags tc k h
    simp [tcInsertTags, h]

/-- An event with one single-letter tag and one multi-letter tag. -/
def evTagged : Event :=
  { id := List.replicate 32 3, pubkey := List.replicate 32 4, created_at := 11,
    tags := some [[[101], [97, 98]], [[101, 120], [99]]] }

/-- Witness for C5: the single-letter tag `e:"ab"` yields an entry, and the
multi-letter tag `ex:"c"` is skipped by the loop. -/
theorem migrate_step2_tag_selective_witness :
    (tagEntry evTagged [[101], [97, 98]]).isSome = true ∧
    tcInsertTags evTagged 4 [[[101, 120], [99]]] [] = tcInsertTags evTagged 4 [] [] :=
  ⟨(migrate_step2_tag_selective evTagged [[101], [97, 98]]).1.mpr
      ⟨[101], [97, 98], [], rfl, rfl⟩,
   (migrate_step2_tag_selective evTagged [[101, 120], [99]]).2.1 4 [] [] rfl⟩

/-- Claim C4: after step 1 completes, every `(key, offset)` entry of the
scanned `i_index` has a `ci_index` entry mapping
`key_ci_index(event.created_at, event.id)` to the same offset, where the
event is `get_event_by_offset(offset)`; and `i_index` itself is unchanged
by the step.  Hypotheses are the table invariants of spec §3: `i_index`
keys are unique, and the event stored at an indexed offset carries the
entry's key as its id. -/
theorem migrate_step1_populates_ci (s w w' : Store)
    (hid : ∀ kv ∈ s.i_index, ∀ e, s.events kv.2 = some e → e.id = kv.1)
    (hnd : (s.i_index.map Prod.fst).Nodup)
    (hok : migrate_to_1 s w = StepOut.ok w') :
    (∀ kv ∈ s.i_index, ∀ e, s.events kv.2 = some e →
      tget w'.ci_index (key_ci_index e.created_at e.id) = some kv.2) ∧
    w'.i_index = w.i_index := by
  unfold migrate_to_1 at hok
  cases hci : ciInsertAll s.events s.i_index w.ci_index with
  | none => rw [hci] at hok; cases hok
  | some ci =>
    rw [hci] at hok
    cases hok
    exact ⟨ciInsertAll_sound s.events s.i_index _ _ hci hid hnd, rfl⟩

/-- A one-event store for exercising step 1. -/
def evIndexed : Event :=
  { id := List.replicate 32 0, pubkey := List.replicate 32 1, created_at := 7, tags := some [] }

/-- A level-0 database whose `i_index` holds one entry at offset 100. -/
def oneEventStore : Store :=
  { freshStore with
    i_index := [(List.replicate 32 0, 100)],
    events := fun o => if o = 100 then some evIndexed else none }

/-- The working state produced by step 1 on `oneEventStore`. -/
def oneEventStep1 : Store :=
  { oneEventStore with ci_index := [(key_ci_index 7 (List.replicate 32 0), 100)] }

/-- Witness for C4 on the one-event store. -/
theorem migrate_step1_populates_ci_witness :
    (∀ kv ∈ oneEventStore.i_index, ∀ e, oneEventStore.events kv.2 = some e →
      tget oneEventStep1.ci_index (key_ci_index e.created_at e.id) = some kv.2) ∧
    oneEventStep1.i_index = oneEventStore.i_index :=
  migrate_step1_populates_ci oneEventStore oneEventStore oneEventStep1
    (by
      intro kv hkv e he
      have hkv' : kv = (List.replicate 32 0, 100) := List.mem_singleton.mp hkv
      subst hkv'
      have he' : evIndexed = e := Option.some.inj he
      subst he'
      rfl)
    (by decide)
    rfl

/-- The state committed by migrating a level-3 store with two legacy
`deleted-events` keys `kA`, `kB` and empty `deleted_ids`. -/
def v5Result (s : Store) (kA kB : Bytes) : Store :=
  { s with
    general := tput (tput s.general mlKey (be32 4)) mlKey (be32 5),
    deleted_offsets := [],
    deleted_events := [],
    deleted_ids := putIds [] [kA.take 32, kB.take 32] }

/-- Claim C3 (amended): from any state stored at migration level 3 whose
legacy `deleted_offsets` table has one key, whose legacy `deleted-events`
table has exactly two keys with leading 32 bytes ID_A and ID_B, and whose
`deleted_ids` table starts out empty (as in the spec's pre-seeded
scenario), `migrate` succeeds after running exactly steps 4 and 5; the
committed state stores level 5, has `deleted_offsets` and `deleted-events`
empty, and `deleted_ids` containing exactly ID_A and ID_B. -/
theorem migrate_v3_to_v5 (s : Store) (kA kB : Bytes)
    (hA : 32 ≤ kA.length) (hB : 32 ≤ kB.length)
    (hlev : tget s.general mlKey = some (be32 3))
    (_hoff : s.deleted_offsets.length = 1)
    (hde : s.deleted_events = [(kA, ()), (kB, ())])
    (hdi : s.deleted_ids = []) :
    migTrace (migrate s) = [4, 5] ∧
    (migStores (migrate s)).isSome = true ∧
    tget (persisted s).general mlKey = some (be32 5) ∧
    (persisted s).deleted_offsets = [] ∧
    (persisted s).deleted_events = [] ∧
    (∀ k : Bytes, (tget (persisted s).deleted_ids k).isSome = true ↔
      (k = kA.take 32 ∨ k = kB.take 32)) := by
  have hcoll : collectIds [(kA, ()), (kB, ())] = some [kA.take 32, kB.take 32] := by
    simp [collectIds, hA, hB]
  have hm : migrate s = MigOut.ok (v5Result s kA kB) [4, 5] := by
    simp [migrate, hlev, decodeMigrationLevel, be32, beVal, CURRENT_MIGRATION_LEVEL,
      migrateLoop, migrate_to, migrate_to_4, migrate_to_5, hde, hdi, hcoll, v5Result]
  have hp : persisted s = v5Result s kA kB := by
    unfold persisted
    rw [hm]
  refine ⟨?_, ?_, ?_, ?_, ?_, ?_⟩
  · rw [hm]
    rfl
  · rw [hm]
    rfl
  · rw [hp]
    exact tget_tput_self _ _ _
  · rw [hp]
    rfl
  · rw [hp]
    rfl
  · intro k
    rw [hp]
    show (tget (putIds [] [kA.take 32, kB.take 32]) k).isSome = true ↔ _
    rw [tget_putIds]
    simp [tget]

/-- A key whose leading 32 bytes are ID_A. -/
def c3idA : Bytes := List.replicate 32 2

/-- A 32-byte key that is itself ID_B. -/
def c3keyB : Bytes := 3 :: List.replicate 31 4

/-- A concrete database at level 3 with one legacy `deleted_offsets` key and
two legacy `deleted-events` keys. -/
def v3Store : Store :=
  { freshStore with
    general := [(mlKey, be32 3)],
    deleted_offsets := [(0, ())],
    deleted_events := [(c3idA, ()), (c3keyB, ())] }

/-- Witness for C3's amended theorem on the concrete level-3 store. -/
theorem migrate_v3_to_v5_witness :
    migTrace (migrate v3Store) = [4, 5] ∧
    (migStores (migrate v3Store)).isSome = true ∧
    tget (persisted v3Store).general mlKey = some (be32 5) ∧
    (persisted v3Store).deleted_offsets = [] ∧
    (persisted v3Store).deleted_events = [] ∧
    (∀ k : Bytes, (tget (persisted v3Store).deleted_ids k).isSome = true ↔
      (k = c3idA.take 32 ∨ k = c3keyB.take 32)) :=
  migrate_v3_to_v5 v3Store c3idA c3keyB (by decide) (by decide) rfl rfl rfl rfl

/-- An unrelated 32-byte id. -/
def c3idC : Bytes := List.replicate 32 9

/-- The level-3 store with a pre-existing `deleted_ids` entry. -/
def v3DirtyStore : Store := { v3Store with deleted_ids := [(c3idC, ())] }

/-- Counterexample to claim C3 as stated: the claim quantifies over every
database state at level 3 with the given legacy contents but does not
require `deleted_ids` to start empty.  On `v3DirtyStore`, whose
`deleted_ids` already holds the unrelated id `c3idC`, migration succeeds to
level 5 yet `deleted_ids` still contains `c3idC`, which is neither ID_A nor
ID_B — so `deleted_ids` does not contain exactly `the set of ID_A and ID_B`. -/
theorem migrate_v3_to_v5_cex :
    (migStores (migrate v3DirtyStore)).isSome = true ∧
    tget (persisted v3DirtyStore).general mlKey = some (be32 5) ∧
    tget (persisted v3DirtyStore).deleted_ids c3idC = some () ∧
    c3idC ≠ c3idA.take 32 ∧ c3idC ≠ c3keyB.take 32 :=
  ⟨rfl, rfl, rfl, by decide, by decide⟩

end Chorus
